import Mathlib

/-!
Verification of the Flashly audio-aware AI quiz generation pipeline.

Strings are modelled as `List Char`.  Every definition in the `Flashly`
namespace is a shallow embedding of a function from the repository source
(`src/quiz/ai-quiz-generator.ts`, `src/utils/audio-utils.ts`,
`src/services/audio-transcription-service.ts`); JavaScript regular-expression
scans are rendered as explicit character scanners with the same
leftmost-match, non-overlapping-global semantics, and JavaScript's
`String.replace`/`split`/`join` by explicit occurrence search.  Replacement
strings are modelled literally (none of the strings the code substitutes
contain JavaScript `$`-patterns).  Recursions that consume a suffix of the
input that is not an immediate tail use a fuel argument bounded by the input
length; the fuel-exhausted branch returns the remaining input unchanged and
is never reached at the chosen bound.
-/

namespace Flashly

/-- Characters of a string literal. -/
def cl (s : String) : List Char := s.data

/-- Left brace character, kept out of character literals. -/
def lbrace : Char := Char.ofNat 123

/-- Right brace character, kept out of character literals. -/
def rbrace : Char := Char.ofNat 125

/-- Backtick character, kept out of character literals. -/
def btick : Char := Char.ofNat 96

/-- JavaScript whitespace (the characters relevant to this code base). -/
def isWsChar (c : Char) : Bool :=
  c = ' ' ∨ c = '\t' ∨ c = '\n' ∨ c = '\r' ∨ c = Char.ofNat 11 ∨ c = Char.ofNat 12

/-- ASCII lower-casing, as `String.prototype.toLowerCase` acts on ASCII. -/
def toLowerChar (c : Char) : Char :=
  if 'A' ≤ c ∧ c ≤ 'Z' then Char.ofNat (c.toNat + 32) else c

/-- Lower-casing of a string, as `toLowerCase`. -/
def lowerStr (s : List Char) : List Char := s.map toLowerChar

/-- Whitespace trim, as `String.prototype.trim`. -/
def trimStr (s : List Char) : List Char :=
  ((s.dropWhile isWsChar).reverse.dropWhile isWsChar).reverse

/-- Test whether `pat` is a prefix of `s`. -/
def isPre : List Char → List Char → Bool
  | [], _ => true
  | _ :: _, [] => false
  | a :: as, b :: bs => a = b && isPre as bs

/-- Split `s` at the first occurrence of `pat`:
`splitFirst pat s = some (p, q)` with `s = p ++ pat ++ q`. -/
def splitFirst (pat : List Char) : List Char → Option (List Char × List Char)
  | [] => if isPre pat [] then some ([], []) else none
  | c :: cs =>
    if isPre pat (c :: cs) then some ([], (c :: cs).drop pat.length)
    else (splitFirst pat cs).map (fun pq => (c :: pq.1, pq.2))

/-- JavaScript `s.replace(pat, rep)` with a string pattern: first occurrence only. -/
def replaceFirst (pat rep s : List Char) : List Char :=
  match splitFirst pat s with
  | some (p, q) => p ++ rep ++ q
  | none => s

/-- JavaScript `s.split(pat).join(rep)` (fuelled; the fuel bound is never hit
for the nonempty patterns the code uses). -/
def replaceAllF : Nat → List Char → List Char → List Char → List Char
  | 0, _, _, s => s
  | f + 1, pat, rep, s =>
    match splitFirst pat s with
    | some (p, q) => p ++ rep ++ replaceAllF f pat rep q
    | none => s

/-- JavaScript `s.split(pat).join(rep)`. -/
def replaceAll (pat rep s : List Char) : List Char :=
  replaceAllF (s.length + 1) pat rep s

/-- Decimal digits of a natural number (auxiliary, fuelled). -/
def natDigitsF : Nat → Nat → List Char
  | 0, _ => []
  | f + 1, n =>
    if n < 10 then [Char.ofNat (48 + n)]
    else natDigitsF f (n / 10) ++ [Char.ofNat (48 + n % 10)]

/-- Decimal digits of a natural number, as written by JavaScript template
interpolation of a nonnegative integer. -/
def natDigits (n : Nat) : List Char := natDigitsF (n + 1) n

/-- Numeric value of an all-digit string, as `parseInt(ds, 10)`. -/
def digitsToNat (ds : List Char) : Nat :=
  ds.foldl (fun n c => n * 10 + (c.toNat - 48)) 0

/-! ### Association lists

`Record<string, T>` objects and the JavaScript `Map` are modelled as
association lists in key-insertion order. -/

/-- Object / `Map` read access. -/
def lookupA {α : Type} (m : List (List Char × α)) (k : List Char) : Option α :=
  match m with
  | [] => none
  | (k', v) :: rest => if k' = k then some v else lookupA rest k

/-- Object / `Map` write access: overwrite in place, else append. -/
def setA {α : Type} (m : List (List Char × α)) (k : List Char) (v : α) :
    List (List Char × α) :=
  match m with
  | [] => [(k, v)]
  | (k', v') :: rest => if k' = k then (k', v) :: rest else (k', v') :: setA rest k v

/-- Key removal, as `delete obj[k]`. -/
def eraseA {α : Type} (m : List (List Char × α)) (k : List Char) :
    List (List Char × α) :=
  match m with
  | [] => []
  | (k', v') :: rest => if k' = k then rest else (k', v') :: eraseA rest k

/-! ### Audio reference indexing (`src/utils/audio-utils.ts`) -/

/-- The `AUDIO_EXTENSIONS` allow-list. -/
def audioExts : List (List Char) :=
  [cl ("mp3"), cl ("wav"), cl ("ogg"), cl ("m4a"), cl ("flac"), cl ("aac")]

/-- The path component after the final dot: `path.split('.').pop()`. -/
def lastDotComponent (s : List Char) : List Char :=
  (s.reverse.takeWhile (fun ch => ch ≠ '.')).reverse

/-- One step of the `/!\[\[([^\]]+)\]\]/g` scan of `extractAudioWikilinks`
(fuelled; each step consumes at least one character). -/
def extAudioF : Nat → List Char → List (List Char)
  | 0, _ => []
  | _ + 1, [] => []
  | f + 1, c :: cs =>
    if isPre (cl ("![[")) (c :: cs) then
      let body := ((c :: cs).drop 3).takeWhile (fun ch => ch ≠ ']')
      let rest := ((c :: cs).drop 3).dropWhile (fun ch => ch ≠ ']')
      if body ≠ [] ∧ isPre (cl ("]]")) rest then
        let fullMatch := cl ("![[") ++ body ++ cl ("]]")
        let audioPath := trimStr (body.takeWhile (fun ch => ch ≠ '|'))
        let ext := lowerStr (lastDotComponent audioPath)
        if audioExts.contains ext then fullMatch :: extAudioF f (rest.drop 2)
        else extAudioF f (rest.drop 2)
      else extAudioF f cs
    else extAudioF f cs

/-- Function `extractAudioWikilinks`: all embed links `![[path|alt?]]` whose path
carries an allow-listed audio extension, in document order. -/
def extractAudioWikilinks (s : List Char) : List (List Char) :=
  extAudioF (s.length + 1) s

/-! ### The placeholder token scanner

The regex `/\[AUDIO:([^[]+):(\d+)\]/g` of `ai-quiz-generator.ts`: the card id
may contain colons, so the greedy group captures up to the last
`:digits]` suffix. -/

/-- A placeholder token occurrence: the full matched text, the captured card
id and the parsed numeric index. -/
structure PMatch where
  token : List Char
  cardId : List Char
  idx : Nat
deriving DecidableEq

/-- Literal prefix of a placeholder token. -/
def phPre : List Char := cl ("[AUDIO:")

/-- Greedy match of `([^[]+):(\d+)\]` against `r`, `acc` being the reversed
id consumed so far.  Longer ids are preferred, mirroring the greedy group. -/
def scanId : List Char → List Char → Option (List Char × List Char × List Char)
  | _, [] => none
  | acc, c :: cs =>
    if c = '[' then none
    else if c = ':' then
      match scanId (c :: acc) cs with
      | some r => some r
      | none =>
        if acc = [] then none
        else
          let ds := cs.takeWhile Char.isDigit
          let rest := cs.dropWhile Char.isDigit
          if ds ≠ [] ∧ rest.head? = some ']' then some (acc.reverse, ds, rest.tail)
          else none
    else scanId (c :: acc) cs

/-- Match a placeholder token at the start of `s`; on success also return the
unconsumed suffix. -/
def matchPHere (s : List Char) : Option (PMatch × List Char) :=
  if isPre phPre s then
    match scanId [] (s.drop 7) with
    | some (id, ds, rest) =>
      some (⟨phPre ++ id ++ ':' :: ds ++ [']'], id, digitsToNat ds⟩, rest)
    | none => none
  else none

/-- Global scan for placeholder tokens (fuelled). -/
def findPlaceholdersF : Nat → List Char → List PMatch
  | 0, _ => []
  | _ + 1, [] => []
  | f + 1, c :: cs =>
    match matchPHere (c :: cs) with
    | some (m, rest) => m :: findPlaceholdersF f rest
    | none => findPlaceholdersF f cs

/-- All placeholder tokens of `s`, leftmost first, non-overlapping. -/
def findPlaceholders (s : List Char) : List PMatch :=
  findPlaceholdersF (s.length + 1) s

/-! ### The placeholder codec (`ai-quiz-generator.ts`) -/

/-- Per-card audio metadata: the ordered wikilinks of the two sides. -/
structure CardAudio where
  front : List (List Char)
  back : List (List Char)
deriving DecidableEq

/-- The token text `[AUDIO:<cardId>:<i>]`. -/
def placeholderTok (cardId : List Char) (i : Nat) : List Char :=
  phPre ++ cardId ++ ':' :: natDigits i ++ [']']

/-- Function `replaceAudioWithPlaceholders`: the encode direction.  For each reference,
in order, the first remaining occurrence is replaced by its token. -/
def replaceAudioWithPlaceholders (markdown : List Char) (links : List (List Char))
    (cardId : List Char) : List Char :=
  (List.range links.length).foldl
    (fun result i => replaceFirst (links.getD i []) (placeholderTok cardId i) result)
    markdown

/-- Loop body of `restoreAudioInText`: substitute one found token when its
card id is known and its index lies inside the card's combined
`front ++ back` list (all occurrences, via `split`/`join`). -/
def restoreStep (meta : List (List Char × CardAudio)) (result : List Char)
    (m : PMatch) : List Char :=
  match lookupA meta m.cardId with
  | some md =>
    let allAudio := md.front ++ md.back
    if m.idx < allAudio.length then
      replaceAll m.token (allAudio.getD m.idx []) result
    else result
  | none => result

/-- Function `restoreAudioInText`: the decode direction.  Tokens are collected from
the original text, then substituted in order; tokens with an unknown card id
or an out-of-range index are left as they are. -/
def restoreAudioInText (text : List Char) (meta : List (List Char × CardAudio)) :
    List Char :=
  (findPlaceholders text).foldl (restoreStep meta) text

/-- The token `m` has no restorable target in `meta`: its card id is not a
key of the metadata index, or its index falls outside the owning card's
combined reference list. -/
def unmatchedIn (meta : List (List Char × CardAudio)) (m : PMatch) : Bool :=
  match lookupA meta m.cardId with
  | none => true
  | some md => decide ((md.front ++ md.back).length ≤ m.idx)

/-- An input flashcard (the fields this core reads). -/
structure FlashlyCard where
  id : List Char
  front : List Char
  back : List Char
deriving DecidableEq

/-- Function `extractAudioMetadata`: card id → ordered audio wikilinks of each side. -/
def extractAudioMetadata (cards : List FlashlyCard) :
    List (List Char × CardAudio) :=
  cards.foldl
    (fun m card =>
      setA m card.id ⟨extractAudioWikilinks card.front, extractAudioWikilinks card.back⟩)
    []

/-! ### Generated questions, deduplication and source attribution -/

/-- A generated quiz question.  `correctAnswer` is `none` when the parsed
object lacks the field (its `string | number` payload is kept as text);
`sourceCardId` is `none` before attribution. -/
structure QuizQuestion where
  qtype : List Char
  prompt : List Char
  options : Option (List (List Char))
  correctAnswer : Option (List Char)
  explanation : Option (List Char)
  sourceCardId : Option (List Char)
deriving DecidableEq

/-- Collapse every whitespace run to a single space: `replace(/\s+/g, ' ')`. -/
def collapseWs : List Char → List Char
  | [] => []
  | [c] => if isWsChar c then [' '] else [c]
  | c :: c2 :: cs =>
    if isWsChar c then
      if isWsChar c2 then collapseWs (c2 :: cs) else ' ' :: collapseWs (c2 :: cs)
    else c :: collapseWs (c2 :: cs)

/-- Normalised prompt key: `prompt.toLowerCase().trim().replace(/\s+/g, ' ')`. -/
def normalizePrompt (p : List Char) : List Char :=
  collapseWs (trimStr (lowerStr p))

/-- The `seen`-set loop of `removeDuplicateQuestions`. -/
def removeDupAux (seen : List (List Char)) : List QuizQuestion → List QuizQuestion
  | [] => []
  | q :: qs =>
    let key := normalizePrompt q.prompt
    if key ∈ seen then removeDupAux seen qs
    else q :: removeDupAux (key :: seen) qs

/-- Function `removeDuplicateQuestions`: keep the first question per normalised prompt. -/
def removeDuplicateQuestions (questions : List QuizQuestion) : List QuizQuestion :=
  removeDupAux [] questions

/-- Placeholder tokens of a question: prompt first, then each option, in order. -/
def collectPH (q : QuizQuestion) : List PMatch :=
  findPlaceholders q.prompt ++
    (match q.options with
     | some opts => (opts.map findPlaceholders).flatten
     | none => [])

/-- Occurrence counting in `Map.set` style: first-seen key order is preserved. -/
def bumpCount (m : List (List Char × Nat)) (k : List Char) : List (List Char × Nat) :=
  match m with
  | [] => [(k, 1)]
  | (k', c) :: rest => if k' = k then (k', c + 1) :: rest else (k', c) :: bumpCount rest k

/-- Occurrences per card id over a token list, keys in first-seen order. -/
def countsOf (pms : List PMatch) : List (List Char × Nat) :=
  pms.foldl (fun m pm => bumpCount m pm.cardId) []

/-- One step of the `count > maxCount` sweep over the map entries. -/
def pickMaxStep (best : Option (List Char) × Nat) (e : List Char × Nat) :
    Option (List Char) × Nat :=
  if e.2 > best.2 then (some e.1, e.2) else best

/-- The `count > maxCount` sweep over the map entries (ties keep the earlier,
i.e. first-seen, entry; `maxCount` starts at 0). -/
def pickMax (l : List (List Char × Nat)) : Option (List Char) :=
  (l.foldl pickMaxStep ((none : Option (List Char)), 0)).1

/-- Substring test: JavaScript `s.includes(pat)`. -/
def containsSub (pat s : List Char) : Bool := (splitFirst pat s).isSome

/-- Split at whitespace runs (fuelled).  `split(/\s+/)` can also yield an
empty leading token, but every consumer filters by `length > 3`, so only the
maximal non-whitespace runs matter. -/
def splitWsF : Nat → List Char → List (List Char)
  | 0, _ => []
  | _ + 1, [] => []
  | f + 1, c :: cs =>
    if isWsChar c then splitWsF f cs
    else (c :: cs.takeWhile (fun ch => ¬ isWsChar ch)) ::
      splitWsF f (cs.dropWhile (fun ch => ¬ isWsChar ch))

/-- Split at whitespace runs. -/
def splitWs (s : List Char) : List (List Char) := splitWsF (s.length + 1) s

/-- The content-overlap score of `findSourceCard` for one card: words of the
lower-cased prompt longer than 3 characters found in the card's combined
text, plus a bonus of 2 when the prompt still carries an `[AUDIO:` marker and
the card has any audio reference. -/
def cardScore (q : QuizQuestion) (card : FlashlyCard) : Nat :=
  let promptWords := (splitWs (lowerStr q.prompt)).filter (fun w => w.length > 3)
  let cardText := lowerStr (card.front ++ ' ' :: card.back)
  let wordScore := (promptWords.filter (fun w => containsSub w cardText)).length
  let audioBonus :=
    if containsSub phPre q.prompt ∧ extractAudioWikilinks (card.front ++ ' ' :: card.back) ≠ []
    then 2 else 0
  wordScore + audioBonus

/-- Function `findSourceCard`: best-scoring card (`score > bestMatch.score` keeps the
first on ties), reported only when the best score is positive. -/
def findSourceCard (q : QuizQuestion) (cards : List FlashlyCard) : Option (List Char) :=
  let best := cards.foldl
    (fun best card =>
      let score := cardScore q card
      match best with
      | none => some (card.id, score)
      | some b => if score > b.2 then some (card.id, score) else best)
    (none : Option (List Char × Nat))
  match best with
  | some b => if b.2 > 0 then some b.1 else none
  | none => none

/-- JavaScript `a || b` on a string-or-undefined value. -/
def jsOrElse (a b : Option (List Char)) : Option (List Char) :=
  match a with
  | some s => if s = [] then b else some s
  | none => b

/-- Per-question body of `restoreAudioInQuestions`: attribute a source card
(placeholder dominance, then content overlap, then the first card) and
restore placeholders in prompt and options. -/
def restoreQuestion (meta : List (List Char × CardAudio)) (cards : List FlashlyCard)
    (q : QuizQuestion) : QuizQuestion :=
  let pms := collectPH q
  let src1 : Option (List Char) := if pms.isEmpty then none else pickMax (countsOf pms)
  let src2 := match jsOrElse src1 none with
              | some s => some s
              | none => findSourceCard q cards
  { q with
    prompt := restoreAudioInText q.prompt meta
    options := q.options.map (fun opts => opts.map (fun o => restoreAudioInText o meta))
    sourceCardId := jsOrElse src2 (cards.head?.map FlashlyCard.id) }

/-- Function `restoreAudioInQuestions`. -/
def restoreAudioInQuestions (questions : List QuizQuestion) (cards : List FlashlyCard)
    (meta : List (List Char × CardAudio)) : List QuizQuestion :=
  questions.map (restoreQuestion meta cards)

/-! ### The orchestration entry point (`generateQuestions`) -/

/-- The settings fields `generateQuestions` consults before provider
dispatch (the voice-AI path is disabled, matching a `null`
transcription service). -/
structure AIQuizSettings where
  enabled : Bool
deriving DecidableEq

/-- Per-card payload handed to the provider call. -/
structure CardData where
  id : List Char
  front : List Char
  back : List Char
deriving DecidableEq

/-- Function `generateQuestions` with the provider network call abstracted as
`callProvider` (a function of the prepared card data; the body threads it
through `buildPrompt` and the provider `switch`).  Thrown `Error`s are
`Except.error` of their message. -/
def generateQuestions (settings : AIQuizSettings) (cards : List FlashlyCard)
    (callProvider : List CardData → Except (List Char) (List QuizQuestion)) :
    Except (List Char) (List QuizQuestion) :=
  if cards.length = 0 then .error (cl ("No cards available to generate quiz"))
  else if settings.enabled = false then
    .error (cl ("AI quiz generation is not enabled in settings"))
  else
    let audioMetadata := extractAudioMetadata cards
    let cardData := cards.map (fun card =>
      let frontAudio := (lookupA audioMetadata card.id).elim [] CardAudio.front
      let backAudio := (lookupA audioMetadata card.id).elim [] CardAudio.back
      CardData.mk card.id
        (replaceAudioWithPlaceholders card.front frontAudio card.id)
        (replaceAudioWithPlaceholders card.back backAudio card.id))
    match callProvider cardData with
    | .error e => .error e
    | .ok qs =>
      .ok (removeDuplicateQuestions (restoreAudioInQuestions qs cards audioMetadata))

/-! ### The response sanitizer (`cleanJsonString`) -/

/-- Close of the fenced-block regex: the lazy body grows one character at a
time until, after skipping whitespace, a closing triple backtick follows.
Returns the captured body. -/
def fenceClose (acc : List Char) : List Char → Option (List Char)
  | [] => none
  | c :: cs =>
    if isPre (cl ("```")) ((c :: cs).dropWhile isWsChar) then some acc.reverse
    else fenceClose (c :: acc) cs

/-- The match of ```` /```(?:json)?\s*([\s\S]*?)\s*```/ ````: leftmost opening
fence, optional `json` tag, then the lazily captured body. -/
def fenceMatch (s : List Char) : Option (List Char) :=
  match splitFirst (cl ("```")) s with
  | none => none
  | some (_, rest1) =>
    let rest2 := if isPre (cl ("json")) rest1 then rest1.drop 4 else rest1
    fenceClose [] (rest2.dropWhile isWsChar)

/-- The two anchored loose-fence replacements,
```` replace(/^```(?:json)?\s*, '') ```` and ```` replace(/\s*```$/, '') ````. -/
def looseStrip (s : List Char) : List Char :=
  let s1 :=
    if isPre (cl ("```")) s then
      let r := s.drop 3
      let r2 := if isPre (cl ("json")) r then r.drop 4 else r
      r2.dropWhile isWsChar
    else s
  let r := s1.reverse
  if isPre (cl ("```")) r then ((r.drop 3).dropWhile isWsChar).reverse else s1

/-- Position of the first occurrence of a character, as `indexOf`. -/
def firstIdxOf (c : Char) (s : List Char) : Option Nat :=
  s.findIdx? (fun ch => ch = c)

/-- Position of the last occurrence of a character, as `lastIndexOf`. -/
def lastIdxOf (c : Char) (s : List Char) : Option Nat :=
  (firstIdxOf c s.reverse).map (fun i => s.length - 1 - i)

/-- Truncate to the substring between the first `{` and the last `}`
(only when both exist in that order). -/
def braceSlice (s : List Char) : List Char :=
  match firstIdxOf lbrace s, lastIdxOf rbrace s with
  | some i, some j => if i < j then (s.drop i).take (j + 1 - i) else s
  | _, _ => s

/-- Hexadecimal digit. -/
def isHexDigit (c : Char) : Bool :=
  ('0' ≤ c ∧ c ≤ '9') ∨ ('a' ≤ c ∧ c ≤ 'f') ∨ ('A' ≤ c ∧ c ≤ 'F')

/-- The next four characters exist and are hexadecimal digits. -/
def fourHex (s : List Char) : Bool :=
  (s.take 4).length = 4 ∧ (s.take 4).all isHexDigit

/-- Step `replace(/\\u(?![0-9a-fA-F]{4})/g, "\\\\u")`: escape a backslash-u that
does not open a unicode escape. -/
def fixU : List Char → List Char
  | [] => []
  | c :: cs =>
    if c = '\\' then
      match cs with
      | [] => ['\\']
      | c2 :: cs2 =>
        if c2 = 'u' then
          if fourHex cs2 then '\\' :: 'u' :: fixU cs2
          else '\\' :: '\\' :: 'u' :: fixU cs2
        else '\\' :: fixU (c2 :: cs2)
    else c :: fixU cs

/-- Command tails repaired after a raw TAB. -/
def tailsTab : List (List Char) :=
  [cl ("ext"), cl ("au"), cl ("heta"), cl ("imes"), cl ("an"), cl ("op"), cl ("o"),
    cl ("riangle"), cl ("herefore")]

/-- Command tails repaired after a raw LF. -/
def tailsLF : List (List Char) := [cl ("u"), cl ("eq"), cl ("abla"), cl ("eg")]

/-- Command tails repaired after a raw CR. -/
def tailsCR : List (List Char) := [cl ("ho"), cl ("ight"), cl ("ef")]

/-- Command tails repaired after a raw form feed. -/
def tailsFF : List (List Char) := [cl ("rac"), cl ("orall"), cl ("oot")]

/-- Command tails repaired after a raw backspace. -/
def tailsBS : List (List Char) := [cl ("eta"), cl ("egin"), cl ("f"), cl ("ar"), cl ("inom")]

/-- One control-character repair pass, e.g.
`replace(/\x09(ext|au|...)/g, "\\\\t$1")` (fuelled): a control byte followed
by a recognised tail (first alternative wins) becomes two backslashes, the
canonical letter and the tail; scanning resumes after the tail. -/
def repairCtrlF : Nat → Char → Char → List (List Char) → List Char → List Char
  | 0, _, _, _, s => s
  | _ + 1, _, _, _, [] => []
  | f + 1, ctrl, letter, tails, c :: cs =>
    if c = ctrl then
      match tails.find? (fun t => isPre t cs) with
      | some t => '\\' :: '\\' :: letter :: (t ++ repairCtrlF f ctrl letter tails (cs.drop t.length))
      | none => c :: repairCtrlF f ctrl letter tails cs
    else c :: repairCtrlF f ctrl letter tails cs

/-- One control-character repair pass. -/
def repairCtrl (ctrl letter : Char) (tails : List (List Char)) (s : List Char) : List Char :=
  repairCtrlF (s.length + 1) ctrl letter tails s

/-- The five repair passes, in source order: TAB, LF, CR, FF, BS. -/
def ctrlRepairAll (s : List Char) : List Char :=
  repairCtrl (Char.ofNat 8) 'b' tailsBS
    (repairCtrl (Char.ofNat 12) 'f' tailsFF
      (repairCtrl '\r' 'r' tailsCR
        (repairCtrl '\n' 'n' tailsLF
          (repairCtrl '\t' 't' tailsTab s))))

/-- The seven JSON escape characters the final pass leaves alone. -/
def validEsc (c : Char) : Bool :=
  c = '"' ∨ c = '\\' ∨ c = '/' ∨ c = 'b' ∨ c = 'f' ∨ c = 'n' ∨ c = 'r' ∨ c = 't' ∨ c = 'u'

/-- Step `replace(/\\(.)/g, ...)`: double every backslash whose following
character is not a valid JSON escape character (non-overlapping, left to
right; a lone final backslash has no following character and is skipped). -/
def escapeStep : List Char → List Char
  | [] => []
  | c :: cs =>
    if c = '\\' then
      match cs with
      | [] => ['\\']
      | c2 :: cs2 =>
        if validEsc c2 then '\\' :: c2 :: escapeStep cs2
        else '\\' :: '\\' :: c2 :: escapeStep cs2
    else c :: escapeStep cs

/-- Function `cleanJsonString`: trim, unfence, brace-slice, then the three escape
repair stages and the trailing-backslash fix-up. -/
def cleanJsonString (content : List Char) : List Char :=
  let c0 := trimStr content
  let c1 :=
    match fenceMatch c0 with
    | some inner => trimStr inner
    | none => looseStrip c0
  let c2 := braceSlice c1
  let c3 := fixU c2
  let c4 := ctrlRepairAll c3
  let c5 := escapeStep c4
  if c5.getLast? = some '\\' then c5.dropLast ++ ['\\', '\\'] else c5

/-! ### The transcription cache (`audio-transcription-service.ts`) -/

/-- A cached transcription record. -/
structure CachedTranscription where
  text : List Char
  language : Option (List Char)
  transcribedAt : List Char
  fileModifiedTime : Option Nat
deriving DecidableEq

/-- Cache state: the in-memory record map and the parsed disk cache file
(`none` when the file is missing or unreadable). -/
structure CacheState where
  mem : List (List Char × CachedTranscription)
  disk : Option (List (List Char × CachedTranscription))
deriving DecidableEq

/-- JavaScript truthiness of the optional numeric `fileModifiedTime`
(`undefined` and `0` are falsy). -/
def truthyTime (o : Option Nat) : Option Nat :=
  match o with
  | some t => if t = 0 then none else some t
  | none => none

/-- Function `getCachedTranscription`: memory first (evicting a stale entry), then the
disk cache (adopting a valid entry into memory).  `fileMtime` maps the paths
of currently existing files to their live modification time. -/
def getCachedTranscription (audioPath : List Char) (st : CacheState)
    (fileMtime : List (List Char × Nat)) : CacheState × Option CachedTranscription :=
  match lookupA st.mem audioPath with
  | some cached =>
    match truthyTime cached.fileModifiedTime with
    | some t =>
      match lookupA fileMtime audioPath with
      | some mtime =>
        if mtime > t then ({ st with mem := eraseA st.mem audioPath }, none)
        else (st, some cached)
      | none => (st, some cached)
    | none => (st, some cached)
  | none =>
    match st.disk with
    | none => (st, none)
    | some diskCache =>
      match lookupA diskCache audioPath with
      | some cached =>
        match lookupA fileMtime audioPath, truthyTime cached.fileModifiedTime with
        | some mtime, some t =>
          if mtime ≤ t then ({ st with mem := setA st.mem audioPath cached }, some cached)
          else (st, none)
        | _, _ => ({ st with mem := setA st.mem audioPath cached }, some cached)
      | none => (st, none)

/-! ### JSON acceptance

Modelled from the spec: the spec's sanitizer contract quantifies over input
that is "already valid JSON", i.e. accepted by the platform `JSON.parse`.
The grammar below is standard JSON (RFC 8259). -/

/-- Skip JSON whitespace. -/
def skipWs (s : List Char) : List Char := s.dropWhile isWsChar

/-- Consume the rest of a JSON string after the opening quote (fuelled). -/
def jsonStrRestF : Nat → List Char → Option (List Char)
  | 0, _ => none
  | _ + 1, [] => none
  | _ + 1, '"' :: rest => some rest
  | f + 1, '\\' :: e :: rest =>
    if e = 'u' then
      if fourHex rest then jsonStrRestF f (rest.drop 4) else none
    else if validEsc e then jsonStrRestF f rest
    else none
  | _ + 1, ['\\'] => none
  | f + 1, c :: rest => if 32 ≤ c.toNat then jsonStrRestF f rest else none

/-- Consume the rest of a JSON string after the opening quote. -/
def jsonStrRest (s : List Char) : Option (List Char) :=
  jsonStrRestF (s.length + 1) s

/-- Consume a JSON number. -/
def jsonNum (s : List Char) : Option (List Char) :=
  let s1 := if s.head? = some '-' then s.tail else s
  let intOk : Bool × List Char :=
    match s1 with
    | '0' :: rest => (true, rest)
    | c :: rest =>
      if c.isDigit ∧ c ≠ '0' then (true, rest.dropWhile Char.isDigit) else (false, s1)
    | [] => (false, s1)
  if intOk.1 = false then none
  else
    let s2 := intOk.2
    let s3 :=
      match s2 with
      | '.' :: r => if (r.takeWhile Char.isDigit) ≠ [] then some (r.dropWhile Char.isDigit) else none
      | _ => some s2
    match s3 with
    | none => none
    | some s4 =>
      match s4 with
      | c :: r =>
        if c = 'e' ∨ c = 'E' then
          let r2 := if r.head? = some '+' ∨ r.head? = some '-' then r.tail else r
          if (r2.takeWhile Char.isDigit) ≠ [] then some (r2.dropWhile Char.isDigit) else none
        else some s4
      | [] => some s4

mutual

/-- Consume one JSON value (fuelled on nesting depth). -/
def jsonValF : Nat → List Char → Option (List Char)
  | 0, _ => none
  | f + 1, s =>
    match skipWs s with
    | [] => none
    | c :: cs =>
      if c = '"' then jsonStrRest cs
      else if c = lbrace then jsonMembersF f (skipWs cs) true
      else if c = '[' then jsonElemsF f (skipWs cs) true
      else if isPre (cl ("true")) (c :: cs) then some ((c :: cs).drop 4)
      else if isPre (cl ("false")) (c :: cs) then some ((c :: cs).drop 5)
      else if isPre (cl ("null")) (c :: cs) then some ((c :: cs).drop 4)
      else jsonNum (c :: cs)

/-- Consume object members up to and including the closing brace. -/
def jsonMembersF : Nat → List Char → Bool → Option (List Char)
  | 0, _, _ => none
  | f + 1, s, isFirst =>
    match s with
    | [] => none
    | c :: cs =>
      if c = rbrace ∧ isFirst then some cs
      else
        match skipWs (c :: cs) with
        | '"' :: ks =>
          match jsonStrRest ks with
          | none => none
          | some afterKey =>
            match skipWs afterKey with
            | ':' :: vs =>
              match jsonValF f vs with
              | none => none
              | some afterVal =>
                match skipWs afterVal with
                | ',' :: ms => jsonMembersF f (skipWs ms) false
                | d :: ms => if d = rbrace then some ms else none
                | [] => none
            | _ => none
        | _ => none

/-- Consume array elements up to and including the closing bracket. -/
def jsonElemsF : Nat → List Char → Bool → Option (List Char)
  | 0, _, _ => none
  | f + 1, s, isFirst =>
    match s with
    | [] => none
    | c :: cs =>
      if c = ']' ∧ isFirst then some cs
      else
        match jsonValF f (c :: cs) with
        | none => none
        | some afterVal =>
          match skipWs afterVal with
          | ',' :: es => jsonElemsF f (skipWs es) false
          | ']' :: es => some es
          | _ => none

end

/-- The string is accepted by `JSON.parse`. -/
def isValidJson (s : List Char) : Bool :=
  match jsonValF (s.length + 1) s with
  | some rest => (skipWs rest).isEmpty
  | none => false

/-! ### Predicates used to state the sanitizer theorems -/

/-- The five control bytes the repair passes look for. -/
def isCtrlChar (c : Char) : Bool :=
  c = '\t' ∨ c = '\n' ∨ c = '\r' ∨ c = Char.ofNat 12 ∨ c = Char.ofNat 8

/-- No repairable control byte occurs in the string. -/
def ctrlFree (s : List Char) : Bool := s.all (fun c => !(isCtrlChar c))

/-- Control byte, canonical letter and a representative command tail (the
first alternative of each repair pass). -/
def repairCases : List (Char × Char × List Char) :=
  [('\t', 't', cl ("ext")), ('\n', 'n', cl ("u")), ('\r', 'r', cl ("ho")),
    (Char.ofNat 12, 'f', cl ("rac")), (Char.ofNat 8, 'b', cl ("eta"))]

/-- No position of the string triggers the repair pass for `ctrl`:
wherever `ctrl` occurs, no recognised tail follows. -/
def noCtrlRepairAt (tails : List (List Char)) (ctrl : Char) : List Char → Bool
  | [] => true
  | c :: cs =>
    (!(c = ctrl && (tails.find? (fun t => isPre t cs)).isSome)) && noCtrlRepairAt tails ctrl cs

/-- No position of the string triggers any of the five repair passes. -/
def noCtrlRepair (s : List Char) : Bool :=
  noCtrlRepairAt tailsTab '\t' s && noCtrlRepairAt tailsLF '\n' s
    && noCtrlRepairAt tailsCR '\r' s && noCtrlRepairAt tailsFF (Char.ofNat 12) s
    && noCtrlRepairAt tailsBS (Char.ofNat 8) s

/-- Every occurrence of the two characters `\u` is followed by four
hexadecimal digits (so the `\u`-escape pass has nothing to do). -/
def uOk : List Char → Bool
  | [] => true
  | c :: cs =>
    if c = '\\' then
      match cs with
      | [] => true
      | c2 :: cs2 => (if c2 = 'u' then fourHex cs2 else true) && uOk (c2 :: cs2)
    else uOk cs

/-- Every backslash opens a two-character escape pair with a valid JSON
escape character (scanning non-overlapping pairs left to right, as the
escape pass does); a lone trailing backslash is rejected. -/
def escOk : List Char → Bool
  | [] => true
  | c :: cs =>
    if c = '\\' then
      match cs with
      | [] => false
      | c2 :: cs2 => validEsc c2 && escOk cs2
    else escOk cs

end Flashly


namespace Flashly

/-- Claim C1.  The encode/decode round trip breaks on a card carrying audio
references on both sides: the back side is encoded with indices restarting
at 0, while decoding resolves indices against the combined
`front ++ back` list, so the re-decoded back text holds the front
reference.  Concretely, for the card `c` with front `![[f.mp3]]` and back
`![[b.mp3]]`, decoding the encoded back text yields `![[f.mp3]]`, not the
original back text. -/
theorem c1_round_trip_fails_on_two_sided_card :
    restoreAudioInText
        (replaceAudioWithPlaceholders (cl ("![[b.mp3]]"))
          (extractAudioWikilinks (cl ("![[b.mp3]]"))) (cl ("c")))
        (extractAudioMetadata [⟨cl ("c"), cl ("![[f.mp3]]"), cl ("![[b.mp3]]")⟩])
      = cl ("![[f.mp3]]")
    ∧ cl ("![[f.mp3]]") ≠ cl ("![[b.mp3]]") := by decide

/-- Claim C2.  For the same two-sided card the encoded texts carry placeholder
indices `[0, 0]` (each side restarts at 0), not the claimed gapless,
repeat-free `0..N-1` positions of the combined ordered reference list,
which for `N = 2` would be `[0, 1]`. -/
theorem c2_placeholder_indices_repeat_on_two_sided_card :
    (findPlaceholders
        (replaceAudioWithPlaceholders (cl ("![[f.mp3]]"))
          (extractAudioWikilinks (cl ("![[f.mp3]]"))) (cl ("c"))) ++
      findPlaceholders
        (replaceAudioWithPlaceholders (cl ("![[b.mp3]]"))
          (extractAudioWikilinks (cl ("![[b.mp3]]"))) (cl ("c")))).map PMatch.idx
      = [0, 0]
    ∧ ([0, 0] : List Nat) ≠ List.range 2 := by decide

/-- Claim C3 counterexample: the function `generateQuestions` returns a parsed question
with an empty prompt and no `correctAnswer` instead of dropping it: no
validation gate exists between parsing and the returned list. -/
theorem c3_empty_prompt_question_is_returned :
    generateQuestions ⟨true⟩ [⟨cl ("c"), cl ("Q"), cl ("A")⟩]
        (fun _ => .ok [⟨cl ("fill-blank"), [], none, none, none, none⟩])
      = .ok [⟨cl ("fill-blank"), [], none, none, none, some (cl ("c"))⟩] := by
  rfl

/-- Claim C5 counterexample.  A valid, brace-delimited JSON string that is not
wrapped in a code fence but contains triple backticks inside a string value
is destroyed by the sanitizer: the fence regex fires on the inner backticks
and `cleanJsonString` returns just `b`. -/
theorem c5_sanitizer_not_identity_on_fence_in_string :
    isValidJson (cl ("\x7b\"a\":\"```b```\"\x7d")) = true
    ∧ (cl ("\x7b\"a\":\"```b```\"\x7d")).head? = some lbrace
    ∧ (cl ("\x7b\"a\":\"```b```\"\x7d")).getLast? = some rbrace
    ∧ isPre (cl ("```")) (cl ("\x7b\"a\":\"```b```\"\x7d")) = false
    ∧ cleanJsonString (cl ("\x7b\"a\":\"```b```\"\x7d")) = cl ("b")
    ∧ cl ("b") ≠ cl ("\x7b\"a\":\"```b```\"\x7d") := by decide

/-- Claim C9 counterexample.  A cached record whose recorded
`fileModifiedTime` is `T = 0` is never invalidated, because the staleness
check is guarded by JavaScript truthiness of `fileModifiedTime`: with a live
file modification time of 5 > 0 the lookup still reports the record
present (and evicts nothing), while the claim demands it be absent. -/
theorem c9_zero_recorded_mtime_is_never_stale :
    (getCachedTranscription (cl ("a.mp3"))
        ⟨[(cl ("a.mp3"), ⟨cl ("hello"), none, cl ("t0"), some 0⟩)], none⟩
        [(cl ("a.mp3"), 5)]).2
      = some ⟨cl ("hello"), none, cl ("t0"), some 0⟩
    ∧ (5 : Nat) > 0 := by decide

/-- A fold of `restoreStep` over tokens that are all unmatched leaves the
text unchanged. -/
theorem foldl_restoreStep_unmatched (meta : List (List Char × CardAudio)) :
    ∀ (l : List PMatch) (r : List Char),
      (∀ m ∈ l, unmatchedIn meta m = true) →
      l.foldl (restoreStep meta) r = r := by
  intro l
  induction l with
  | nil => intro r _; rfl
  | cons m l ih =>
    intro r h
    have hm : unmatchedIn meta m = true := h m (List.mem_cons_self m l)
    have hl : ∀ m' ∈ l, unmatchedIn meta m' = true :=
      fun m' hm' => h m' (List.mem_cons_of_mem m hm')
    have hstep : restoreStep meta r m = r := by
      unfold restoreStep
      unfold unmatchedIn at hm
      rcases hmeta : lookupA meta m.cardId with _ | md
      · simp
      · rw [hmeta] at hm
        simp only [decide_eq_true_eq] at hm
        simp only []
        rw [if_neg (by omega)]
    rw [List.foldl_cons, hstep]
    exact ih r hl

/-- Claim C4 counterexample.  Decode can silently destroy an unmatched
placeholder token.  In `[AUDIO:c:0] [AUDIO:c:0]x:1]` the second token parses
greedily as `[AUDIO:c:0]x:1]` with the unknown card id `c:0]x` (ids may
contain `]` and colons), so it is unmatched against metadata carrying only
card `c`; but the `split`/`join` substitution of the matched first token
rewrites every occurrence of its text, including the one inside the
unmatched token, which therefore does not survive in the output. -/
theorem c4_unmatched_token_destroyed_by_overlap :
    findPlaceholders (cl ("[AUDIO:c:0] [AUDIO:c:0]x:1]"))
      = [⟨cl ("[AUDIO:c:0]"), cl ("c"), 0⟩,
          ⟨cl ("[AUDIO:c:0]x:1]"), cl ("c:0]x"), 1⟩]
    ∧ unmatchedIn [(cl ("c"), ⟨[cl ("![[f.mp3]]")], []⟩)]
        ⟨cl ("[AUDIO:c:0]x:1]"), cl ("c:0]x"), 1⟩ = true
    ∧ restoreAudioInText (cl ("[AUDIO:c:0] [AUDIO:c:0]x:1]"))
        [(cl ("c"), ⟨[cl ("![[f.mp3]]")], []⟩)]
      = cl ("![[f.mp3]] ![[f.mp3]]x:1]")
    ∧ containsSub (cl ("[AUDIO:c:0]x:1]")) (cl ("![[f.mp3]] ![[f.mp3]]x:1]"))
      = false := by decide

/-- Claim C4 amended.  The decode `restoreAudioInText` is total (never
raises) and, on a text all of whose placeholder tokens are unmatched —
unknown card id, or an index at or beyond the owning card's combined
reference count — it is the identity: every unmatched token and all
non-placeholder text are preserved verbatim.  In mixed texts the matched
tokens are substituted and disjoint unmatched tokens survive (second
conjunct), but preservation is not unconditional: when a matched token's
text occurs inside an unmatched token, the global substitution rewrites
inside it (see the counterexample). -/
theorem c4_decode_leaves_unmatched_tokens_untouched :
    (∀ (text : List Char) (meta : List (List Char × CardAudio)),
        (∀ m ∈ findPlaceholders text, unmatchedIn meta m = true) →
        restoreAudioInText text meta = text)
    ∧ restoreAudioInText (cl ("[AUDIO:c:0] a [AUDIO:c:5] b [AUDIO:d:0]"))
        [(cl ("c"), ⟨[cl ("![[f.mp3]]")], []⟩)]
      = cl ("![[f.mp3]] a [AUDIO:c:5] b [AUDIO:d:0]") := by
  constructor
  · intro text meta h
    exact foldl_restoreStep_unmatched meta (findPlaceholders text) text h
  · decide

/-- Claim C4 witness.  The tokens of a concrete text (unknown id `zz`, index 9)
are all unmatched against an empty metadata index, and decoding returns the
text unchanged, by the C4 theorem. -/
theorem c4_decode_witness :
    (∀ m ∈ findPlaceholders (cl ("x [AUDIO:zz:9] y")),
        unmatchedIn ([] : List (List Char × CardAudio)) m = true)
    ∧ restoreAudioInText (cl ("x [AUDIO:zz:9] y")) [] = cl ("x [AUDIO:zz:9] y") :=
  ⟨by decide, c4_decode_leaves_unmatched_tokens_untouched.1 _ _ (by decide)⟩

/-- Deduplicating an already deduplicated list (with the same seen set) is
the identity. -/
theorem removeDupAux_idem :
    ∀ (l : List QuizQuestion) (seen : List (List Char)),
      removeDupAux seen (removeDupAux seen l) = removeDupAux seen l := by
  intro l
  induction l with
  | nil => intro seen; rfl
  | cons q l ih =>
    intro seen
    by_cases h : normalizePrompt q.prompt ∈ seen
    · simp only [removeDupAux, if_pos h]
      exact ih seen
    · have h1 : removeDupAux seen (q :: l)
          = q :: removeDupAux (normalizePrompt q.prompt :: seen) l := by
        simp only [removeDupAux, if_neg h]
      rw [h1]
      have h2 : removeDupAux seen
            (q :: removeDupAux (normalizePrompt q.prompt :: seen) l)
          = q :: removeDupAux (normalizePrompt q.prompt :: seen)
              (removeDupAux (normalizePrompt q.prompt :: seen) l) := by
        simp only [removeDupAux, if_neg h]
      rw [h2, ih]

/-- The deduplicated list is a sublist of the input. -/
theorem removeDupAux_sublist :
    ∀ (l : List QuizQuestion) (seen : List (List Char)),
      (removeDupAux seen l).Sublist l := by
  intro l
  induction l with
  | nil => intro seen; exact List.Sublist.refl []
  | cons q l ih =>
    intro seen
    by_cases h : normalizePrompt q.prompt ∈ seen
    · simp only [removeDupAux, if_pos h]
      exact (ih seen).cons q
    · simp only [removeDupAux, if_neg h]
      exact (ih (normalizePrompt q.prompt :: seen)).cons₂ q

/-- Every input question's normalised key is either already in the seen set
or represented in the output. -/
theorem removeDupAux_covers :
    ∀ (l : List QuizQuestion) (seen : List (List Char)) (q : QuizQuestion),
      q ∈ l →
      normalizePrompt q.prompt ∈ seen ∨
        ∃ q', q' ∈ removeDupAux seen l ∧
          normalizePrompt q'.prompt = normalizePrompt q.prompt := by
  intro l
  induction l with
  | nil => intro seen q hq; cases hq
  | cons p l ih =>
    intro seen q hq
    by_cases hp : normalizePrompt p.prompt ∈ seen
    · rcases List.mem_cons.1 hq with hq | hq
      · subst hq; exact Or.inl hp
      · rcases ih seen q hq with h | ⟨q', hq', hk⟩
        · exact Or.inl h
        · refine Or.inr ⟨q', ?_, hk⟩
          simpa only [removeDupAux, if_pos hp] using hq'
    · rcases List.mem_cons.1 hq with hq | hq
      · subst hq
        refine Or.inr ⟨q, ?_, rfl⟩
        simp only [removeDupAux, if_neg hp]
        exact List.mem_cons_self q _
      · rcases ih (normalizePrompt p.prompt :: seen) q hq with h | ⟨q', hq', hk⟩
        · rcases List.mem_cons.1 h with h | h
          · refine Or.inr ⟨p, ?_, h.symm⟩
            simp only [removeDupAux, if_neg hp]
            exact List.mem_cons_self p _
          · exact Or.inl h
        · refine Or.inr ⟨q', ?_, hk⟩
          simp only [removeDupAux, if_neg hp]
          exact List.mem_cons_of_mem p hq'

/-- Claim C7: the dedupe `removeDuplicateQuestions` keeps, in original relative order,
the first question per normalised prompt key (lower-case, trim, collapse
whitespace): it is idempotent, returns a sublist, represents every input
key, always keeps the head, and collapses `What is 2+2?` with
`  what is 2+2?  ` to the first of the two. -/
theorem c7_dedupe_first_per_normalized_prompt :
    (∀ qs, removeDuplicateQuestions (removeDuplicateQuestions qs)
      = removeDuplicateQuestions qs)
    ∧ (∀ qs, (removeDuplicateQuestions qs).Sublist qs)
    ∧ (∀ qs (q : QuizQuestion), q ∈ qs →
        ∃ q', q' ∈ removeDuplicateQuestions qs ∧
          normalizePrompt q'.prompt = normalizePrompt q.prompt)
    ∧ (∀ (q : QuizQuestion) qs, ∃ rest,
        removeDuplicateQuestions (q :: qs) = q :: rest)
    ∧ removeDuplicateQuestions
        [⟨cl ("tf"), cl ("What is 2+2?"), none, some (cl ("4")), none, none⟩,
          ⟨cl ("tf"), cl ("  what is 2+2?  "), none, some (cl ("four")), none, none⟩]
      = [⟨cl ("tf"), cl ("What is 2+2?"), none, some (cl ("4")), none, none⟩] := by
  refine ⟨fun qs => removeDupAux_idem qs [], fun qs => removeDupAux_sublist qs [],
    fun qs q hq => ?_, fun q qs => ?_, by decide⟩
  · rcases removeDupAux_covers qs [] q hq with h | h
    · cases h
    · exact h
  · refine ⟨removeDupAux (normalizePrompt q.prompt :: []) qs, ?_⟩
    simp only [removeDuplicateQuestions, removeDupAux]
    rw [if_neg (List.not_mem_nil _)]

/-- Claim C7 witness.  The key-coverage clause of the C7 theorem applied to a
concrete one-element list. -/
theorem c7_dedupe_witness :
    (⟨cl ("tf"), cl ("Q1"), none, none, none, none⟩ : QuizQuestion) ∈
        [(⟨cl ("tf"), cl ("Q1"), none, none, none, none⟩ : QuizQuestion)]
    ∧ ∃ q', q' ∈ removeDuplicateQuestions
          [(⟨cl ("tf"), cl ("Q1"), none, none, none, none⟩ : QuizQuestion)]
        ∧ normalizePrompt q'.prompt
          = normalizePrompt (cl ("Q1")) := by
  refine ⟨by decide, ?_⟩
  have h := c7_dedupe_first_per_normalized_prompt.2.2.1
      [(⟨cl ("tf"), cl ("Q1"), none, none, none, none⟩ : QuizQuestion)]
      (⟨cl ("tf"), cl ("Q1"), none, none, none, none⟩ : QuizQuestion) (by decide)
  simpa using h

/-- The `pickMaxStep` fold from accumulator `(b, n)` either changes nothing
(when no entry beats `n`) or returns the first entry that strictly beats
every earlier entry, with no later entry strictly greater. -/
theorem pickMax_fold_first_max :
    ∀ (l : List (List Char × Nat)) (b : Option (List Char)) (n : Nat),
      (l.foldl pickMaxStep (b, n) = (b, n) ∧ ∀ p ∈ l, p.2 ≤ n) ∨
      (∃ w wc l1 l2, l.foldl pickMaxStep (b, n) = (some w, wc)
        ∧ l = l1 ++ (w, wc) :: l2 ∧ n < wc
        ∧ (∀ p ∈ l1, p.2 < wc) ∧ (∀ p ∈ l2, p.2 ≤ wc)) := by
  intro l
  induction l with
  | nil => intro b n; exact Or.inl ⟨rfl, by simp⟩
  | cons e l ih =>
    intro b n
    by_cases hc : e.2 > n
    · have hstep : pickMaxStep (b, n) e = (some e.1, e.2) := by
        simp [pickMaxStep, hc]
      rw [List.foldl_cons, hstep]
      rcases ih (some e.1) e.2 with ⟨hf, hle⟩ | ⟨w, wc, l1, l2, hf, hsplit, hlt, h1, h2⟩
      · exact Or.inr ⟨e.1, e.2, [], l, hf, by simp, hc, by simp, hle⟩
      · refine Or.inr ⟨w, wc, e :: l1, l2, hf, by rw [hsplit]; rfl, by omega, ?_, h2⟩
        intro p hp
        rcases List.mem_cons.1 hp with rfl | hp
        · exact hlt
        · exact h1 p hp
    · have hstep : pickMaxStep (b, n) e = (b, n) := by
        simp [pickMaxStep, hc]
      rw [List.foldl_cons, hstep]
      rcases ih b n with ⟨hf, hle⟩ | ⟨w, wc, l1, l2, hf, hsplit, hlt, h1, h2⟩
      · refine Or.inl ⟨hf, ?_⟩
        intro p hp
        rcases List.mem_cons.1 hp with rfl | hp
        · omega
        · exact hle p hp
      · refine Or.inr ⟨w, wc, e :: l1, l2, hf, by rw [hsplit]; rfl, hlt, ?_, h2⟩
        intro p hp
        rcases List.mem_cons.1 hp with rfl | hp
        · omega
        · exact h1 p hp

/-- Counts produced by `bumpCount` stay positive. -/
theorem bumpCount_pos :
    ∀ (m : List (List Char × Nat)) (k : List Char), (∀ p ∈ m, 1 ≤ p.2) →
      ∀ p ∈ bumpCount m k, 1 ≤ p.2 := by
  intro m
  induction m with
  | nil =>
    intro k _ p hp
    simp only [bumpCount, List.mem_singleton] at hp
    subst hp; exact le_refl 1
  | cons e rest ih =>
    intro k h p hp
    by_cases hk : e.1 = k
    · simp only [bumpCount, if_pos hk] at hp
      rcases List.mem_cons.1 hp with rfl | hp
      · simp
      · exact h p (List.mem_cons_of_mem e hp)
    · simp only [bumpCount, if_neg hk] at hp
      rcases List.mem_cons.1 hp with h' | hp
      · have : e = p := by rw [h']
        rw [← this]; exact h e (List.mem_cons_self e rest)
      · exact ih k (fun p' hp' => h p' (List.mem_cons_of_mem e hp')) p hp

/-- Maps produced by `bumpCount` are never empty. -/
theorem bumpCount_ne_nil : ∀ (m : List (List Char × Nat)) (k : List Char),
    bumpCount m k ≠ [] := by
  intro m k
  cases m with
  | nil => simp [bumpCount]
  | cons e rest =>
    by_cases hk : e.1 = k
    · simp [bumpCount, if_pos hk]
    · simp [bumpCount, if_neg hk]

/-- All counts produced by `countsOf` are positive. -/
theorem countsOf_pos : ∀ (pms : List PMatch), ∀ p ∈ countsOf pms, 1 ≤ p.2 := by
  have haux : ∀ (pms : List PMatch) (acc : List (List Char × Nat)),
      (∀ p ∈ acc, 1 ≤ p.2) →
      ∀ p ∈ pms.foldl (fun m pm => bumpCount m pm.cardId) acc, 1 ≤ p.2 := by
    intro pms
    induction pms with
    | nil => intro acc h; exact h
    | cons pm pms ih =>
      intro acc h
      exact ih (bumpCount acc pm.cardId) (bumpCount_pos acc pm.cardId h)
  intro pms
  exact haux pms [] (by simp)

/-- Count maps of a nonempty token list are nonempty. -/
theorem countsOf_ne_nil : ∀ (pms : List PMatch), pms ≠ [] → countsOf pms ≠ [] := by
  have haux : ∀ (pms : List PMatch) (acc : List (List Char × Nat)),
      acc ≠ [] → pms.foldl (fun m pm => bumpCount m pm.cardId) acc ≠ [] := by
    intro pms
    induction pms with
    | nil => intro acc h; exact h
    | cons pm pms ih =>
      intro acc _
      exact ih (bumpCount acc pm.cardId) (bumpCount_ne_nil acc pm.cardId)
  intro pms hne
  cases pms with
  | nil => exact absurd rfl hne
  | cons pm pms =>
    exact haux pms (bumpCount [] pm.cardId) (bumpCount_ne_nil [] pm.cardId)

/-- Claim C8.  Source attribution by placeholder dominance: over any nonempty
per-card count map with positive counts (the shape `countsOf` always
produces), the sweep selects the entry with the greatest count, ties broken
in favour of the first-seen card id; and a concrete question holding three
placeholders of card `A` (two in the prompt, one in an option) and one of
card `B` is attributed to `A`. -/
theorem c8_attribution_by_placeholder_dominance :
    (∀ (l : List (List Char × Nat)), l ≠ [] → (∀ p ∈ l, 1 ≤ p.2) →
      ∃ w wc l1 l2, pickMax l = some w ∧ l = l1 ++ (w, wc) :: l2
        ∧ (∀ p ∈ l1, p.2 < wc) ∧ (∀ p ∈ l2, p.2 ≤ wc))
    ∧ (∀ (pms : List PMatch), ∀ p ∈ countsOf pms, 1 ≤ p.2)
    ∧ (∀ (pms : List PMatch), pms ≠ [] → countsOf pms ≠ [])
    ∧ (restoreQuestion [] []
        ⟨cl ("mc"), cl ("[AUDIO:A:0] q [AUDIO:A:1]"),
          some [cl ("[AUDIO:A:2]"), cl ("[AUDIO:B:0]")],
          some (cl ("0")), none, none⟩).sourceCardId = some (cl ("A")) := by
  refine ⟨fun l hne hpos => ?_, countsOf_pos, countsOf_ne_nil, by decide⟩
  rcases pickMax_fold_first_max l none 0 with ⟨hf, hle⟩ | ⟨w, wc, l1, l2, hf, hsplit, _, h1, h2⟩
  · exfalso
    cases l with
    | nil => exact hne rfl
    | cons p l =>
      have h0 := hle p (List.mem_cons_self p l)
      have h1 := hpos p (List.mem_cons_self p l)
      omega
  · exact ⟨w, wc, l1, l2, by unfold pickMax; rw [hf], hsplit, h1, h2⟩

/-- Claim C8 witness.  The dominance clause applied to the concrete count map
`A ↦ 3, B ↦ 1`. -/
theorem c8_attribution_witness :
    ([(cl ("A"), 3), (cl ("B"), 1)] : List (List Char × Nat)) ≠ []
    ∧ (∀ p ∈ ([(cl ("A"), 3), (cl ("B"), 1)] : List (List Char × Nat)), 1 ≤ p.2)
    ∧ ∃ w wc l1 l2, pickMax [(cl ("A"), 3), (cl ("B"), 1)] = some w
        ∧ ([(cl ("A"), 3), (cl ("B"), 1)] : List (List Char × Nat))
          = l1 ++ (w, wc) :: l2
        ∧ (∀ p ∈ l1, p.2 < wc) ∧ (∀ p ∈ l2, p.2 ≤ wc) := by
  refine ⟨by decide, by decide, ?_⟩
  exact c8_attribution_by_placeholder_dominance.1
    [(cl ("A"), 3), (cl ("B"), 1)] (by decide) (by decide)

/-- Claim C9 amended.  Cache invalidation for a record with a nonzero recorded
`fileModifiedTime = T` whose file exists with live mtime `M`: a memory-tier
record is evicted and reported absent exactly when `M > T` and returned when
`M ≤ T`; a disk-tier record is reported absent when `M > T` (without being
adopted) and adopted and returned when `M ≤ T`; a record with no
`fileModifiedTime` is always returned.  (The `T = 0` edge case is excluded:
JavaScript truthiness skips the check, see the counterexample.) -/
theorem c9_cache_invalidation_amended :
    ∀ (st : CacheState) (fs : List (List Char × Nat)) (path : List Char)
      (r : CachedTranscription),
      (lookupA st.mem path = some r →
        (∀ T, r.fileModifiedTime = some T → T ≠ 0 →
          ∀ M, lookupA fs path = some M →
            (T < M → getCachedTranscription path st fs
                = ({ st with mem := eraseA st.mem path }, none))
            ∧ (M ≤ T → getCachedTranscription path st fs = (st, some r)))
        ∧ (r.fileModifiedTime = none →
            getCachedTranscription path st fs = (st, some r)))
      ∧ (∀ dc, lookupA st.mem path = none → st.disk = some dc →
          lookupA dc path = some r →
          (∀ T, r.fileModifiedTime = some T → T ≠ 0 →
            ∀ M, lookupA fs path = some M →
              (T < M → getCachedTranscription path st fs = (st, none))
              ∧ (M ≤ T → getCachedTranscription path st fs
                  = ({ st with mem := setA st.mem path r }, some r)))
          ∧ (r.fileModifiedTime = none →
              getCachedTranscription path st fs
                = ({ st with mem := setA st.mem path r }, some r))) := by
  intro st fs path r
  constructor
  · intro hmem
    constructor
    · intro T hT hT0 M hM
      have htr : truthyTime r.fileModifiedTime = some T := by
        rw [hT]; simp [truthyTime, hT0]
      constructor
      · intro hlt
        simp only [getCachedTranscription, hmem, htr, hM]
        rw [if_pos (by omega)]
      · intro hle
        simp only [getCachedTranscription, hmem, htr, hM]
        rw [if_neg (by omega)]
    · intro hT
      have htr : truthyTime r.fileModifiedTime = none := by
        rw [hT]; rfl
      simp only [getCachedTranscription, hmem, htr]
  · intro dc hmem hdisk hdc
    constructor
    · intro T hT hT0 M hM
      have htr : truthyTime r.fileModifiedTime = some T := by
        rw [hT]; simp [truthyTime, hT0]
      constructor
      · intro hlt
        simp only [getCachedTranscription, hmem, hdisk, hdc, htr, hM]
        rw [if_neg (by omega)]
      · intro hle
        simp only [getCachedTranscription, hmem, hdisk, hdc, htr, hM]
        rw [if_pos (by omega)]
    · intro hT
      have htr : truthyTime r.fileModifiedTime = none := by
        rw [hT]; rfl
      cases hfs : lookupA fs path with
      | none => simp only [getCachedTranscription, hmem, hdisk, hdc, htr, hfs]
      | some M => simp only [getCachedTranscription, hmem, hdisk, hdc, htr, hfs]

/-- Claim C9 witness.  The memory-tier clauses of the amended theorem at a
concrete record with `T = 10`: live mtime 11 evicts, live mtime 9 returns
the record. -/
theorem c9_cache_invalidation_witness :
    (lookupA (⟨[(cl ("a.mp3"), ⟨cl ("hi"), none, cl ("t0"), some 10⟩)], none⟩ :
        CacheState).mem (cl ("a.mp3"))
      = some ⟨cl ("hi"), none, cl ("t0"), some 10⟩)
    ∧ getCachedTranscription (cl ("a.mp3"))
        ⟨[(cl ("a.mp3"), ⟨cl ("hi"), none, cl ("t0"), some 10⟩)], none⟩
        [(cl ("a.mp3"), 11)]
      = (⟨[], none⟩, none)
    ∧ getCachedTranscription (cl ("a.mp3"))
        ⟨[(cl ("a.mp3"), ⟨cl ("hi"), none, cl ("t0"), some 10⟩)], none⟩
        [(cl ("a.mp3"), 9)]
      = (⟨[(cl ("a.mp3"), ⟨cl ("hi"), none, cl ("t0"), some 10⟩)], none⟩,
          some ⟨cl ("hi"), none, cl ("t0"), some 10⟩) := by
  refine ⟨by decide, ?_, ?_⟩
  · have h := ((c9_cache_invalidation_amended
        ⟨[(cl ("a.mp3"), ⟨cl ("hi"), none, cl ("t0"), some 10⟩)], none⟩
        [(cl ("a.mp3"), 11)] (cl ("a.mp3"))
        ⟨cl ("hi"), none, cl ("t0"), some 10⟩).1 (by decide)).1
        10 rfl (by decide) 11 (by decide)
    exact h.1 (by omega)
  · have h := ((c9_cache_invalidation_amended
        ⟨[(cl ("a.mp3"), ⟨cl ("hi"), none, cl ("t0"), some 10⟩)], none⟩
        [(cl ("a.mp3"), 9)] (cl ("a.mp3"))
        ⟨cl ("hi"), none, cl ("t0"), some 10⟩).1 (by decide)).1
        10 rfl (by decide) 9 (by decide)
    exact h.2 (by omega)

/-- Claim C10: the entry point `generateQuestions` fails fast: with an empty card list it
throws `No cards available to generate quiz`, and with AI generation
disabled it throws `AI quiz generation is not enabled in settings`; in both
cases the outcome is an error independent of the provider call (no provider
is consulted, no prompt is needed) and never a question list. -/
theorem c10_generate_fails_fast :
    (∀ (settings : AIQuizSettings)
        (call : List CardData → Except (List Char) (List QuizQuestion)),
        generateQuestions settings [] call
          = .error (cl ("No cards available to generate quiz")))
    ∧ (∀ (settings : AIQuizSettings) (cards : List FlashlyCard)
        (call : List CardData → Except (List Char) (List QuizQuestion)),
        settings.enabled = false → cards ≠ [] →
        generateQuestions settings cards call
          = .error (cl ("AI quiz generation is not enabled in settings")))
    ∧ (∀ (settings : AIQuizSettings) (cards : List FlashlyCard)
        (call call' : List CardData → Except (List Char) (List QuizQuestion)),
        cards = [] ∨ settings.enabled = false →
        generateQuestions settings cards call
          = generateQuestions settings cards call') := by
  refine ⟨fun settings call => rfl, fun settings cards call hs hc => ?_, ?_⟩
  · have hlen : ¬ cards.length = 0 := by
      simpa [List.length_eq_zero] using hc
    simp only [generateQuestions, if_neg hlen, hs]
    rfl
  · intro settings cards call call' h
    rcases h with h | h
    · subst h; rfl
    · by_cases hlen : cards.length = 0
      · simp only [generateQuestions, if_pos hlen]
      · simp only [generateQuestions, if_neg hlen, h]
        rfl

/-- Claim C10 witness.  The disabled-settings clause at a concrete card list
and two distinct provider behaviours. -/
theorem c10_generate_witness :
    (⟨false⟩ : AIQuizSettings).enabled = false
    ∧ ([⟨cl ("c"), cl ("Q"), cl ("A")⟩] : List FlashlyCard) ≠ []
    ∧ generateQuestions ⟨false⟩ [⟨cl ("c"), cl ("Q"), cl ("A")⟩]
        (fun _ => .ok [])
      = .error (cl ("AI quiz generation is not enabled in settings")) := by
  refine ⟨rfl, by decide, ?_⟩
  exact c10_generate_fails_fast.2.1 ⟨false⟩ [⟨cl ("c"), cl ("Q"), cl ("A")⟩]
    (fun _ => .ok []) rfl (by decide)

/-- Claim C3 amended.  There is no validation gate: when generation succeeds,
the first parsed question always reaches the returned list (deduplication
never drops a first occurrence), with its prompt merely placeholder-restored
and its `correctAnswer` copied verbatim — in particular a question with an
empty prompt or no `correctAnswer` is returned, not dropped. -/
theorem c3_first_parsed_question_always_returned :
    ∀ (settings : AIQuizSettings) (cards : List FlashlyCard)
      (q : QuizQuestion) (qs : List QuizQuestion)
      (call : List CardData → Except (List Char) (List QuizQuestion)),
      settings.enabled = true → cards ≠ [] →
      (∀ cd, call cd = .ok (q :: qs)) →
      ∃ rest, generateQuestions settings cards call
          = .ok (restoreQuestion (extractAudioMetadata cards) cards q :: rest)
        ∧ (restoreQuestion (extractAudioMetadata cards) cards q).prompt
            = restoreAudioInText q.prompt (extractAudioMetadata cards)
        ∧ (restoreQuestion (extractAudioMetadata cards) cards q).correctAnswer
            = q.correctAnswer := by
  intro settings cards q qs call hs hc hcall
  have hlen : ¬ cards.length = 0 := by
    simpa [List.length_eq_zero] using hc
  refine ⟨removeDupAux
      [normalizePrompt (restoreQuestion (extractAudioMetadata cards) cards q).prompt]
      (restoreAudioInQuestions qs cards (extractAudioMetadata cards)), ?_, rfl, rfl⟩
  simp only [generateQuestions, if_neg hlen, hs, Bool.true_eq_false, if_neg
    (show ¬ (True = False) by simp)]
  rw [hcall]
  simp only [restoreAudioInQuestions, List.map_cons, removeDuplicateQuestions,
    removeDupAux]
  rw [if_neg (List.not_mem_nil _)]
  simp

/-- Claim C3 amended witness.  The amended theorem applied to a concrete
provider response whose single question has an empty prompt and no
`correctAnswer`. -/
theorem c3_first_parsed_witness :
    (⟨true⟩ : AIQuizSettings).enabled = true
    ∧ ([⟨cl ("c"), cl ("Q"), cl ("A")⟩] : List FlashlyCard) ≠ []
    ∧ (∀ cd, (fun (_ : List CardData) =>
          (.ok [⟨cl ("fb"), [], none, none, none, none⟩] :
            Except (List Char) (List QuizQuestion))) cd
        = .ok (⟨cl ("fb"), [], none, none, none, none⟩ :: []))
    ∧ ∃ rest,
        generateQuestions ⟨true⟩ [⟨cl ("c"), cl ("Q"), cl ("A")⟩]
            (fun _ => .ok [⟨cl ("fb"), [], none, none, none, none⟩])
          = .ok (restoreQuestion
              (extractAudioMetadata [⟨cl ("c"), cl ("Q"), cl ("A")⟩])
              [⟨cl ("c"), cl ("Q"), cl ("A")⟩]
              ⟨cl ("fb"), [], none, none, none, none⟩ :: rest)
        ∧ (restoreQuestion (extractAudioMetadata [⟨cl ("c"), cl ("Q"), cl ("A")⟩])
            [⟨cl ("c"), cl ("Q"), cl ("A")⟩]
            ⟨cl ("fb"), [], none, none, none, none⟩).prompt
          = restoreAudioInText []
              (extractAudioMetadata [⟨cl ("c"), cl ("Q"), cl ("A")⟩])
        ∧ (restoreQuestion (extractAudioMetadata [⟨cl ("c"), cl ("Q"), cl ("A")⟩])
            [⟨cl ("c"), cl ("Q"), cl ("A")⟩]
            ⟨cl ("fb"), [], none, none, none, none⟩).correctAnswer
          = none := by
  refine ⟨rfl, by decide, fun cd => rfl, ?_⟩
  exact c3_first_parsed_question_always_returned ⟨true⟩
    [⟨cl ("c"), cl ("Q"), cl ("A")⟩]
    ⟨cl ("fb"), [], none, none, none, none⟩ []
    (fun _ => .ok [⟨cl ("fb"), [], none, none, none, none⟩])
    rfl (by decide) (fun cd => rfl)

/-- A repair pass is the identity on a string free of its control byte,
for any fuel. -/
theorem repairCtrlF_id :
    ∀ (f : Nat) (ctrl letter : Char) (tails : List (List Char)) (s : List Char),
      (∀ c ∈ s, c ≠ ctrl) → repairCtrlF f ctrl letter tails s = s := by
  intro f
  induction f with
  | zero => intros; rfl
  | succ f ih =>
    intro ctrl letter tails s h
    cases s with
    | nil => rfl
    | cons c cs =>
      have hc : c ≠ ctrl := h c (List.mem_cons_self c cs)
      simp only [repairCtrlF, if_neg hc]
      rw [ih ctrl letter tails cs (fun c' hc' => h c' (List.mem_cons_of_mem c hc'))]

/-- A repair pass is the identity on a string free of its control byte. -/
theorem repairCtrl_id (ctrl letter : Char) (tails : List (List Char)) (s : List Char)
    (h : ∀ c ∈ s, c ≠ ctrl) : repairCtrl ctrl letter tails s = s :=
  repairCtrlF_id (s.length + 1) ctrl letter tails s h

/-- A repair pass copies a control-byte-free prefix verbatim, spending one
unit of fuel per character. -/
theorem repairCtrlF_append :
    ∀ (pre : List Char) (f : Nat) (ctrl letter : Char) (tails : List (List Char))
      (rest : List Char), (∀ c ∈ pre, c ≠ ctrl) →
      repairCtrlF f ctrl letter tails (pre ++ rest)
        = pre ++ repairCtrlF (f - pre.length) ctrl letter tails rest := by
  intro pre
  induction pre with
  | nil => intros; simp
  | cons c pre ih =>
    intro f ctrl letter tails rest h
    have hc : c ≠ ctrl := h c (List.mem_cons_self c pre)
    cases f with
    | zero => simp [repairCtrlF]
    | succ f =>
      simp only [List.cons_append, repairCtrlF, if_neg hc, List.append_eq]
      rw [ih f ctrl letter tails rest (fun c' hc' => h c' (List.mem_cons_of_mem c hc'))]
      simp [Nat.succ_sub_succ]

/-- A pattern is a prefix of itself followed by anything. -/
theorem isPre_append_self : ∀ (xs ys : List Char), isPre xs (xs ++ ys) = true := by
  intro xs
  induction xs with
  | nil => intro ys; rfl
  | cons x xs ih => intro ys; simp [isPre, ih]

/-- A repair pass on `pre ++ ctrl :: (t ++ post)` with control-free `pre` and
`post`, where the alternation finds the tail `t`, rewrites exactly the one
occurrence. -/
theorem repairCtrl_single (ctrl letter : Char) (tails : List (List Char))
    (t pre post : List Char)
    (hfind : tails.find? (fun t' => isPre t' (t ++ post)) = some t)
    (hpre : ∀ c ∈ pre, c ≠ ctrl) (hpost : ∀ c ∈ post, c ≠ ctrl) :
    repairCtrl ctrl letter tails (pre ++ ctrl :: (t ++ post))
      = pre ++ '\\' :: '\\' :: letter :: (t ++ post) := by
  unfold repairCtrl
  rw [repairCtrlF_append pre _ ctrl letter tails (ctrl :: (t ++ post)) hpre]
  have hfuel : (pre ++ ctrl :: (t ++ post)).length + 1 - pre.length
      = (t.length + post.length + 1) + 1 := by
    simp [List.length_append]
    omega
  rw [hfuel]
  have hstep : repairCtrlF ((t.length + post.length + 1) + 1) ctrl letter tails
      (ctrl :: (t ++ post))
      = '\\' :: '\\' :: letter ::
        (t ++ repairCtrlF (t.length + post.length + 1) ctrl letter tails
          ((t ++ post).drop t.length)) := by
    simp [repairCtrlF, hfind]
  rw [hstep, List.drop_left,
    repairCtrlF_id (t.length + post.length + 1) ctrl letter tails post hpost]

/-- Split a `∀ c ∈ pre ++ c0 :: (t ++ post)` goal into its four parts. -/
theorem all_ne_parts (pre t post : List Char) (c0 x : Char)
    (hpre : ∀ c ∈ pre, c ≠ x) (hc : c0 ≠ x) (ht : ∀ c ∈ t, c ≠ x)
    (hpost : ∀ c ∈ post, c ≠ x) :
    ∀ c ∈ pre ++ c0 :: (t ++ post), c ≠ x := by
  intro c hcmem
  rcases List.mem_append.1 hcmem with h | h
  · exact hpre c h
  · rcases List.mem_cons.1 h with rfl | h
    · exact hc
    · rcases List.mem_append.1 h with h | h
      · exact ht c h
      · exact hpost c h

/-- As `all_ne_parts`, for the repaired shape with the escape and letter. -/
theorem all_ne_parts2 (pre t post : List Char) (l x : Char)
    (hpre : ∀ c ∈ pre, c ≠ x) (hb : '\\' ≠ x) (hl : l ≠ x) (ht : ∀ c ∈ t, c ≠ x)
    (hpost : ∀ c ∈ post, c ≠ x) :
    ∀ c ∈ pre ++ '\\' :: '\\' :: l :: (t ++ post), c ≠ x := by
  intro c hcmem
  rcases List.mem_append.1 hcmem with h | h
  · exact hpre c h
  · rcases List.mem_cons.1 h with rfl | h
    · exact hb
    · rcases List.mem_cons.1 h with rfl | h
      · exact hb
      · rcases List.mem_cons.1 h with rfl | h
        · exact hl
        · rcases List.mem_append.1 h with h | h
          · exact ht c h
          · exact hpost c h

/-- A control-free string avoids each specific control byte. -/
theorem ctrlFree_ne (s : List Char) (h : ctrlFree s = true) (x : Char)
    (hx : isCtrlChar x = true) : ∀ c ∈ s, c ≠ x := by
  intro c hc hcx
  have hall := List.all_eq_true.1 h c hc
  rw [hcx] at hall
  subst hcx
  rw [hx] at hall
  simp at hall

/-- Claim C6.  Control-character repair: wherever a raw control byte (TAB, LF,
CR, FF, BS) is immediately followed by its pass's first recognised LaTeX
command tail, inside otherwise control-free context, the repair stage
rewrites the byte to two backslashes plus the byte's canonical letter,
keeping the tail — a raw TAB before `ext` becomes `\\text`; and
`cleanJsonString` performs this repair end to end on a concrete payload
containing a literal tab before `ext`. -/
theorem c6_control_character_repair :
    (∀ (c letter : Char) (t : List Char), (c, letter, t) ∈ repairCases →
      ∀ (pre post : List Char), ctrlFree pre = true → ctrlFree post = true →
        ctrlRepairAll (pre ++ c :: (t ++ post))
          = pre ++ '\\' :: '\\' :: letter :: (t ++ post))
    ∧ cleanJsonString (cl ("\x7b\"a\":\"\text\"\x7d"))
      = cl ("\x7b\"a\":\"\\\\text\"\x7d") := by
  constructor
  · intro c letter t hmem pre post hpre hpost
    simp only [repairCases, List.mem_cons, List.mem_singleton,
      List.not_mem_nil, or_false, Prod.mk.injEq] at hmem
    rcases hmem with ⟨rfl, rfl, rfl⟩ | ⟨rfl, rfl, rfl⟩ | ⟨rfl, rfl, rfl⟩ |
      ⟨rfl, rfl, rfl⟩ | ⟨rfl, rfl, rfl⟩
    · simp only [ctrlRepairAll]
      rw [repairCtrl_single '\t' 't' tailsTab (cl ("ext")) pre post
          (by simp only [tailsTab]
              exact List.find?_cons_of_pos _ (isPre_append_self (cl ("ext")) post))
          (ctrlFree_ne pre hpre '\t' (by decide)) (ctrlFree_ne post hpost '\t' (by decide))]
      rw [repairCtrl_id '\n' 'n' tailsLF _
          (all_ne_parts2 pre (cl ("ext")) post 't' '\n'
            (ctrlFree_ne pre hpre '\n' (by decide)) (by decide) (by decide) (by decide)
            (ctrlFree_ne post hpost '\n' (by decide)))]
      rw [repairCtrl_id '\r' 'r' tailsCR _
          (all_ne_parts2 pre (cl ("ext")) post 't' '\r'
            (ctrlFree_ne pre hpre '\r' (by decide)) (by decide) (by decide) (by decide)
            (ctrlFree_ne post hpost '\r' (by decide)))]
      rw [repairCtrl_id (Char.ofNat 12) 'f' tailsFF _
          (all_ne_parts2 pre (cl ("ext")) post 't' (Char.ofNat 12)
            (ctrlFree_ne pre hpre (Char.ofNat 12) (by decide)) (by decide) (by decide)
            (by decide) (ctrlFree_ne post hpost (Char.ofNat 12) (by decide)))]
      rw [repairCtrl_id (Char.ofNat 8) 'b' tailsBS _
          (all_ne_parts2 pre (cl ("ext")) post 't' (Char.ofNat 8)
            (ctrlFree_ne pre hpre (Char.ofNat 8) (by decide)) (by decide) (by decide)
            (by decide) (ctrlFree_ne post hpost (Char.ofNat 8) (by decide)))]
    · simp only [ctrlRepairAll]
      rw [repairCtrl_id '\t' 't' tailsTab _
          (all_ne_parts pre (cl ("u")) post '\n' '\t'
            (ctrlFree_ne pre hpre '\t' (by decide)) (by decide) (by decide)
            (ctrlFree_ne post hpost '\t' (by decide)))]
      rw [repairCtrl_single '\n' 'n' tailsLF (cl ("u")) pre post
          (by simp only [tailsLF]
              exact List.find?_cons_of_pos _ (isPre_append_self (cl ("u")) post))
          (ctrlFree_ne pre hpre '\n' (by decide)) (ctrlFree_ne post hpost '\n' (by decide))]
      rw [repairCtrl_id '\r' 'r' tailsCR _
          (all_ne_parts2 pre (cl ("u")) post 'n' '\r'
            (ctrlFree_ne pre hpre '\r' (by decide)) (by decide) (by decide) (by decide)
            (ctrlFree_ne post hpost '\r' (by decide)))]
      rw [repairCtrl_id (Char.ofNat 12) 'f' tailsFF _
          (all_ne_parts2 pre (cl ("u")) post 'n' (Char.ofNat 12)
            (ctrlFree_ne pre hpre (Char.ofNat 12) (by decide)) (by decide) (by decide)
            (by decide) (ctrlFree_ne post hpost (Char.ofNat 12) (by decide)))]
      rw [repairCtrl_id (Char.ofNat 8) 'b' tailsBS _
          (all_ne_parts2 pre (cl ("u")) post 'n' (Char.ofNat 8)
            (ctrlFree_ne pre hpre (Char.ofNat 8) (by decide)) (by decide) (by decide)
            (by decide) (ctrlFree_ne post hpost (Char.ofNat 8) (by decide)))]
    · simp only [ctrlRepairAll]
      rw [repairCtrl_id '\t' 't' tailsTab _
          (all_ne_parts pre (cl ("ho")) post '\r' '\t'
            (ctrlFree_ne pre hpre '\t' (by decide)) (by decide) (by decide)
            (ctrlFree_ne post hpost '\t' (by decide)))]
      rw [repairCtrl_id '\n' 'n' tailsLF _
          (all_ne_parts pre (cl ("ho")) post '\r' '\n'
            (ctrlFree_ne pre hpre '\n' (by decide)) (by decide) (by decide)
            (ctrlFree_ne post hpost '\n' (by decide)))]
      rw [repairCtrl_single '\r' 'r' tailsCR (cl ("ho")) pre post
          (by simp only [tailsCR]
              exact List.find?_cons_of_pos _ (isPre_append_self (cl ("ho")) post))
          (ctrlFree_ne pre hpre '\r' (by decide)) (ctrlFree_ne post hpost '\r' (by decide))]
      rw [repairCtrl_id (Char.ofNat 12) 'f' tailsFF _
          (all_ne_parts2 pre (cl ("ho")) post 'r' (Char.ofNat 12)
            (ctrlFree_ne pre hpre (Char.ofNat 12) (by decide)) (by decide) (by decide)
            (by decide) (ctrlFree_ne post hpost (Char.ofNat 12) (by decide)))]
      rw [repairCtrl_id (Char.ofNat 8) 'b' tailsBS _
          (all_ne_parts2 pre (cl ("ho")) post 'r' (Char.ofNat 8)
            (ctrlFree_ne pre hpre (Char.ofNat 8) (by decide)) (by decide) (by decide)
            (by decide) (ctrlFree_ne post hpost (Char.ofNat 8) (by decide)))]
    · simp only [ctrlRepairAll]
      rw [repairCtrl_id '\t' 't' tailsTab _
          (all_ne_parts pre (cl ("rac")) post (Char.ofNat 12) '\t'
            (ctrlFree_ne pre hpre '\t' (by decide)) (by decide) (by decide)
            (ctrlFree_ne post hpost '\t' (by decide)))]
      rw [repairCtrl_id '\n' 'n' tailsLF _
          (all_ne_parts pre (cl ("rac")) post (Char.ofNat 12) '\n'
            (ctrlFree_ne pre hpre '\n' (by decide)) (by decide) (by decide)
            (ctrlFree_ne post hpost '\n' (by decide)))]
      rw [repairCtrl_id '\r' 'r' tailsCR _
          (all_ne_parts pre (cl ("rac")) post (Char.ofNat 12) '\r'
            (ctrlFree_ne pre hpre '\r' (by decide)) (by decide) (by decide)
            (ctrlFree_ne post hpost '\r' (by decide)))]
      rw [repairCtrl_single (Char.ofNat 12) 'f' tailsFF (cl ("rac")) pre post
          (by simp only [tailsFF]
              exact List.find?_cons_of_pos _ (isPre_append_self (cl ("rac")) post))
          (ctrlFree_ne pre hpre (Char.ofNat 12) (by decide))
          (ctrlFree_ne post hpost (Char.ofNat 12) (by decide))]
      rw [repairCtrl_id (Char.ofNat 8) 'b' tailsBS _
          (all_ne_parts2 pre (cl ("rac")) post 'f' (Char.ofNat 8)
            (ctrlFree_ne pre hpre (Char.ofNat 8) (by decide)) (by decide) (by decide)
            (by decide) (ctrlFree_ne post hpost (Char.ofNat 8) (by decide)))]
    · simp only [ctrlRepairAll]
      rw [repairCtrl_id '\t' 't' tailsTab _
          (all_ne_parts pre (cl ("eta")) post (Char.ofNat 8) '\t'
            (ctrlFree_ne pre hpre '\t' (by decide)) (by decide) (by decide)
            (ctrlFree_ne post hpost '\t' (by decide)))]
      rw [repairCtrl_id '\n' 'n' tailsLF _
          (all_ne_parts pre (cl ("eta")) post (Char.ofNat 8) '\n'
            (ctrlFree_ne pre hpre '\n' (by decide)) (by decide) (by decide)
            (ctrlFree_ne post hpost '\n' (by decide)))]
      rw [repairCtrl_id '\r' 'r' tailsCR _
          (all_ne_parts pre (cl ("eta")) post (Char.ofNat 8) '\r'
            (ctrlFree_ne pre hpre '\r' (by decide)) (by decide) (by decide)
            (ctrlFree_ne post hpost '\r' (by decide)))]
      rw [repairCtrl_id (Char.ofNat 12) 'f' tailsFF _
          (all_ne_parts pre (cl ("eta")) post (Char.ofNat 8) (Char.ofNat 12)
            (ctrlFree_ne pre hpre (Char.ofNat 12) (by decide)) (by decide) (by decide)
            (ctrlFree_ne post hpost (Char.ofNat 12) (by decide)))]
      rw [repairCtrl_single (Char.ofNat 8) 'b' tailsBS (cl ("eta")) pre post
          (by simp only [tailsBS]
              exact List.find?_cons_of_pos _ (isPre_append_self (cl ("eta")) post))
          (ctrlFree_ne pre hpre (Char.ofNat 8) (by decide))
          (ctrlFree_ne post hpost (Char.ofNat 8) (by decide))]
  · decide

/-- Claim C6 witness.  The repair clause of the C6 theorem applied to a
concrete JSON-like context around a raw tab followed by `ext`. -/
theorem c6_control_character_repair_witness :
    (('\t', 't', cl ("ext")) ∈ repairCases)
    ∧ ctrlFree (cl ("\x7b\"a\":\"")) = true
    ∧ ctrlFree (cl ("\"\x7d")) = true
    ∧ ctrlRepairAll (cl ("\x7b\"a\":\"") ++ '\t' :: (cl ("ext") ++ cl ("\"\x7d")))
      = cl ("\x7b\"a\":\"") ++ '\\' :: '\\' :: 't' :: (cl ("ext") ++ cl ("\"\x7d")) := by
  refine ⟨by decide, by decide, by decide, ?_⟩
  exact c6_control_character_repair.1 '\t' 't' (cl ("ext")) (by decide)
    (cl ("\x7b\"a\":\"")) (cl ("\"\x7d")) (by decide) (by decide)

/-- Heads differ, so not a prefix. -/
theorem isPre_false_of_head_ne (pat s : List Char) (p a : Char) (hp : pat.head? = some p)
    (hs : s.head? = some a) (h : p ≠ a) : isPre pat s = false := by
  cases pat with
  | nil => simp at hp
  | cons p' ps =>
    cases s with
    | nil => simp at hs
    | cons a' as =>
      have hp' : p' = p := by simpa using hp
      have ha' : a' = a := by simpa using hs
      subst hp'; subst ha'
      simp [isPre, h]

/-- Trimming is the identity when neither end is whitespace. -/
theorem trimStr_id (s : List Char) (c d : Char) (hc : s.head? = some c)
    (hcw : isWsChar c = false) (hd : s.getLast? = some d) (hdw : isWsChar d = false) :
    trimStr s = s := by
  have h1 : s.dropWhile isWsChar = s := by
    cases s with
    | nil => rfl
    | cons a as =>
      have ha : a = c := by simpa using hc
      subst ha
      simp [List.dropWhile_cons, hcw]
  have h2 : s.reverse.dropWhile isWsChar = s.reverse := by
    cases hrev : s.reverse with
    | nil => rfl
    | cons a as =>
      have ha : s.reverse.head? = some a := by rw [hrev]; rfl
      rw [List.head?_reverse] at ha
      have had : a = d := by rw [ha] at hd; exact (Option.some.injEq .. ▸ hd)
      subst had
      rw [← hrev]
      rw [hrev]
      simp [List.dropWhile_cons, hdw]
  unfold trimStr
  rw [h1, h2, List.reverse_reverse]

/-- The loose fence strip is the identity when neither end is a backtick. -/
theorem looseStrip_id (s : List Char) (c d : Char) (hc : s.head? = some c)
    (hc' : c ≠ btick) (hd : s.getLast? = some d) (hd' : d ≠ btick) :
    looseStrip s = s := by
  have h1 : isPre (cl ("```")) s = false :=
    isPre_false_of_head_ne _ s btick c (by decide) hc (fun h => hc' h.symm)
  have h2 : isPre (cl ("```")) s.reverse = false := by
    refine isPre_false_of_head_ne _ s.reverse btick d (by decide) ?_
      (fun h => hd' h.symm)
    rw [List.head?_reverse]; exact hd
  unfold looseStrip
  rw [h1]
  simp only [Bool.false_eq_true, if_false]
  rw [h2]
  simp

/-- The brace slice is the identity on a brace-delimited string. -/
theorem braceSlice_id (s : List Char) (hc : s.head? = some lbrace)
    (hd : s.getLast? = some rbrace) : braceSlice s = s := by
  cases s with
  | nil => simp at hc
  | cons a as =>
    have ha : a = lbrace := by simpa using hc
    subst ha
    cases as with
    | nil =>
      have : lbrace = rbrace := by simpa using hd
      exact absurd this (by decide)
    | cons b bs =>
      have hlen : 2 ≤ (lbrace :: b :: bs).length := by simp
      have h1 : firstIdxOf lbrace (lbrace :: b :: bs) = some 0 := by
        simp [firstIdxOf, List.findIdx?_cons]
      have hrevhead : (lbrace :: b :: bs).reverse.head? = some rbrace := by
        rw [List.head?_reverse]; exact hd
      have h2 : lastIdxOf rbrace (lbrace :: b :: bs)
          = some ((lbrace :: b :: bs).length - 1) := by
        unfold lastIdxOf firstIdxOf
        cases hrev : (lbrace :: b :: bs).reverse with
        | nil => rw [hrev] at hrevhead; simp at hrevhead
        | cons r rs =>
          rw [hrev] at hrevhead
          have : r = rbrace := by simpa using hrevhead
          subst this
          simp [List.findIdx?_cons]
      have hlt : 0 < (lbrace :: b :: bs).length - 1 := by
        simp only [List.length_cons]; omega
      have hbs : braceSlice (lbrace :: b :: bs)
          = if 0 < (lbrace :: b :: bs).length - 1
            then ((lbrace :: b :: bs).drop 0).take ((lbrace :: b :: bs).length - 1 + 1 - 0)
            else lbrace :: b :: bs := by
        unfold braceSlice
        rw [h1, h2]
      rw [hbs, if_pos hlt]
      simp only [List.drop_zero, Nat.sub_zero,
        Nat.sub_add_cancel (by simp : 1 ≤ (lbrace :: b :: bs).length)]
      exact List.take_length ..

/-- The `\u`-escape pass is the identity when every `\u` opens a hex
escape. -/
theorem fixU_id_aux : ∀ (n : Nat) (s : List Char), s.length ≤ n →
    uOk s = true → fixU s = s := by
  intro n
  induction n with
  | zero =>
    intro s hs _
    have : s = [] := List.length_eq_zero.1 (Nat.le_zero.1 hs)
    subst this; rfl
  | succ n ih =>
    intro s hs h
    cases s with
    | nil => rfl
    | cons c cs =>
      by_cases hc : c = '\\'
      · subst hc
        cases cs with
        | nil => rfl
        | cons c2 cs2 =>
          by_cases hu : c2 = 'u'
          · subst hu
            have h' : fourHex cs2 = true ∧ uOk ('u' :: cs2) = true := by
              rw [uOk.eq_def] at h
              simpa using h
            have h'' : uOk cs2 = true := by
              have h2 := h'.2
              rw [uOk.eq_def] at h2
              simpa using h2
            have hfix : fixU ('\\' :: 'u' :: cs2) = '\\' :: 'u' :: fixU cs2 := by
              rw [fixU.eq_def]
              simp [h'.1]
            rw [hfix, ih cs2 (by simp at hs; omega) h'']
          · have h' : uOk (c2 :: cs2) = true := by
              rw [uOk.eq_def] at h
              simpa [hu] using h
            have hfix : fixU ('\\' :: c2 :: cs2) = '\\' :: fixU (c2 :: cs2) := by
              rw [fixU.eq_def]
              simp [hu]
            rw [hfix, ih (c2 :: cs2) (by simp at hs ⊢; omega) h']
      · have h' : uOk cs = true := by
          rw [uOk.eq_def] at h
          simpa [hc] using h
        have hfix : fixU (c :: cs) = c :: fixU cs := by
          rw [fixU.eq_def]
          simp [hc]
        rw [hfix, ih cs (by simp at hs; omega) h']

/-- A repair pass is the identity when no position of the string triggers
it. -/
theorem repairCtrlF_id_of_noRepair :
    ∀ (f : Nat) (ctrl letter : Char) (tails : List (List Char)) (s : List Char),
      noCtrlRepairAt tails ctrl s = true → repairCtrlF f ctrl letter tails s = s := by
  intro f
  induction f with
  | zero => intros; rfl
  | succ f ih =>
    intro ctrl letter tails s h
    cases s with
    | nil => rfl
    | cons c cs =>
      have hsplit : (!(decide (c = ctrl) && (tails.find? (fun t => isPre t cs)).isSome)) = true
          ∧ noCtrlRepairAt tails ctrl cs = true := by
        rw [noCtrlRepairAt.eq_def] at h
        simpa using h
      by_cases hc : c = ctrl
      · subst hc
        have hnone : tails.find? (fun t => isPre t cs) = none := by
          have h1 := hsplit.1
          simp only [decide_eq_true_eq, Bool.not_eq_true', Bool.and_eq_false_iff,
            decide_eq_false_iff_not] at h1
          rcases h1 with h' | h'
          · exact absurd trivial h'
          · exact Option.not_isSome_iff_eq_none.1 (by simp [h'])
        have hstep : repairCtrlF (f + 1) c letter tails (c :: cs)
            = c :: repairCtrlF f c letter tails cs := by
          simp [repairCtrlF, hnone]
        rw [hstep, ih c letter tails cs hsplit.2]
      · have hstep : repairCtrlF (f + 1) ctrl letter tails (c :: cs)
            = c :: repairCtrlF f ctrl letter tails cs := by
          simp [repairCtrlF, hc]
        rw [hstep, ih ctrl letter tails cs hsplit.2]

/-- All five repair passes are the identity on a string free of repair
patterns. -/
theorem ctrlRepairAll_id (s : List Char) (h : noCtrlRepair s = true) :
    ctrlRepairAll s = s := by
  have h5 : noCtrlRepairAt tailsTab '\t' s = true
      ∧ noCtrlRepairAt tailsLF '\n' s = true
      ∧ noCtrlRepairAt tailsCR '\r' s = true
      ∧ noCtrlRepairAt tailsFF (Char.ofNat 12) s = true
      ∧ noCtrlRepairAt tailsBS (Char.ofNat 8) s = true := by
    simpa [noCtrlRepair, Bool.and_eq_true, and_assoc] using h
  unfold ctrlRepairAll repairCtrl
  rw [repairCtrlF_id_of_noRepair _ _ _ _ _ h5.1]
  rw [repairCtrlF_id_of_noRepair _ _ _ _ _ h5.2.1]
  rw [repairCtrlF_id_of_noRepair _ _ _ _ _ h5.2.2.1]
  rw [repairCtrlF_id_of_noRepair _ _ _ _ _ h5.2.2.2.1]
  rw [repairCtrlF_id_of_noRepair _ _ _ _ _ h5.2.2.2.2]

/-- The backslash-escape pass is the identity when every backslash opens a
valid escape pair. -/
theorem escapeStep_id_aux : ∀ (n : Nat) (s : List Char), s.length ≤ n →
    escOk s = true → escapeStep s = s := by
  intro n
  induction n with
  | zero =>
    intro s hs _
    have : s = [] := List.length_eq_zero.1 (Nat.le_zero.1 hs)
    subst this; rfl
  | succ n ih =>
    intro s hs h
    cases s with
    | nil => rfl
    | cons c cs =>
      by_cases hc : c = '\\'
      · subst hc
        cases cs with
        | nil =>
          rw [escOk.eq_def] at h
          simp at h
        | cons c2 cs2 =>
          have h' : validEsc c2 = true ∧ escOk cs2 = true := by
            rw [escOk.eq_def] at h
            simpa using h
          have hstep : escapeStep ('\\' :: c2 :: cs2) = '\\' :: c2 :: escapeStep cs2 := by
            rw [escapeStep.eq_def]
            simp [h'.1]
          rw [hstep, ih cs2 (by simp at hs; omega) h'.2]
      · have h' : escOk cs = true := by
          rw [escOk.eq_def] at h
          simpa [hc] using h
        have hstep : escapeStep (c :: cs) = c :: escapeStep cs := by
          rw [escapeStep.eq_def]
          simp [hc]
        rw [hstep, ih cs (by simp at hs; omega) h']

/-- Even fence-free valid JSON is not always fixed by the sanitizer: in the
valid document holding the string value with escape pair `\\` directly
before the letters `under`, the backslash-u pass fires on the second
backslash of the pair (the regex is blind to escape pairing) and inserts an
extra backslash.  So the structural hypotheses of the identity theorem
below, the `uOk` condition in particular, are genuinely needed and are not
implied by JSON validity. -/
theorem cleanJson_rewrites_escaped_backslash_before_u :
    isValidJson (cl ("\x7b\"a\":\"\\\\under\"\x7d")) = true
    ∧ uOk (cl ("\x7b\"a\":\"\\\\under\"\x7d")) = false
    ∧ cleanJsonString (cl ("\x7b\"a\":\"\\\\under\"\x7d"))
      = cl ("\x7b\"a\":\"\\\\\\under\"\x7d")
    ∧ cl ("\x7b\"a\":\"\\\\\\under\"\x7d") ≠ cl ("\x7b\"a\":\"\\\\under\"\x7d") := by
  decide

/-- Claim C5 amended.  The sanitizer is the identity exactly under these
structural conditions: the string is brace-delimited (starts with the open
brace, ends with the close brace), contains no triple-backtick occurrence
anywhere (also not inside string values), every literal `\u` character pair
is followed by four hexadecimal digits, no raw control byte is followed by a
recognised LaTeX tail, and every backslash opens a valid two-character JSON
escape pair.  Valid brace-delimited JSON can violate the fence condition
(see the C5 counterexample) and also the `\u` condition (see
the preceding theorem), so identity does not extend to all fence-free valid
JSON; under the conditions above `cleanJsonString` returns the string
unchanged. -/
theorem c5_sanitizer_identity_amended :
    ∀ (s : List Char), s.head? = some lbrace → s.getLast? = some rbrace →
      splitFirst (cl ("```")) s = none → uOk s = true → noCtrlRepair s = true →
      escOk s = true → cleanJsonString s = s := by
  intro s hhead hlast hfence hu hctrl hesc
  have htrim : trimStr s = s :=
    trimStr_id s lbrace rbrace hhead (by decide) hlast (by decide)
  have hfm : fenceMatch s = none := by
    unfold fenceMatch
    rw [hfence]
  have hloose : looseStrip s = s :=
    looseStrip_id s lbrace rbrace hhead (by decide) hlast (by decide)
  have hbrace : braceSlice s = s := braceSlice_id s hhead hlast
  have hfix : fixU s = s := fixU_id_aux s.length s (le_refl _) hu
  have hrep : ctrlRepairAll s = s := ctrlRepairAll_id s hctrl
  have hescape : escapeStep s = s := escapeStep_id_aux s.length s (le_refl _) hesc
  have hnotbs : ¬ s.getLast? = some '\\' := by
    rw [hlast]
    intro hcontra
    have : rbrace = '\\' := by simpa using hcontra
    exact absurd this (by decide)
  simp only [cleanJsonString]
  rw [htrim, hfm]
  rw [hloose, hbrace, hfix, hrep, hescape, if_neg hnotbs]

/-- Claim C5 amended witness.  The amended identity at the concrete clean JSON
object. -/
theorem c5_sanitizer_identity_witness :
    (cl ("\x7b\"a\":1\x7d")).head? = some lbrace
    ∧ (cl ("\x7b\"a\":1\x7d")).getLast? = some rbrace
    ∧ splitFirst (cl ("```")) (cl ("\x7b\"a\":1\x7d")) = none
    ∧ uOk (cl ("\x7b\"a\":1\x7d")) = true
    ∧ noCtrlRepair (cl ("\x7b\"a\":1\x7d")) = true
    ∧ escOk (cl ("\x7b\"a\":1\x7d")) = true
    ∧ cleanJsonString (cl ("\x7b\"a\":1\x7d")) = cl ("\x7b\"a\":1\x7d") := by
  refine ⟨by decide, by decide, by decide, by decide, by decide, by decide, ?_⟩
  exact c5_sanitizer_identity_amended (cl ("\x7b\"a\":1\x7d"))
    (by decide) (by decide) (by decide) (by decide) (by decide) (by decide)

end Flashly
